import Mathlib

/-!
Shallow embedding of the grid-gic ETL pipeline (src/etl), covering:
window selection and range validation (`fetch_solar_wind.py`),
derived-feature formulas (`fetch_solar_wind.py`, `fetch_omni.py`),
bounded forward-fill and range clipping (`fetch_solar_wind.py`),
timestamp deduplication (`fetch_solar_wind.py`, `ingest_solar_wind.py`),
the retrying upsert sink (`ingest_swarm_test.py`), and the per-satellite
lagged difference (`ingest_swarm_test.py`).

Instants are modelled as rational numbers of seconds (UTC); pandas nulls
(NaN / pd.NA) are modelled as `Option` `none`.
-/

namespace GridGic

/-- Function `_pick_window` from `fetch_solar_wind.py`: the input is the requested
span in hours (`delta.total_seconds()/3600`). -/
def pick_window (h : ℚ) : String :=
  if h ≤ 2 then "2h"
  else if h ≤ 6 then "6h"
  else if h ≤ 72 then "3d"
  else "7d"

/-- The enumerated feed granularity buckets with their covered span in
hours, in the order of `PLASMA_FEEDS` / `MAG_FEEDS`. -/
def windowBuckets : List (String × ℚ) :=
  [("2h", 2), ("6h", 6), ("3d", 72), ("7d", 168)]

/-- The maximum lookback accepted by `fetch_solar_wind_merged`
(`dt.timedelta(days=7)`), in seconds. -/
def maxLookback : ℚ := 7 * 86400

/-- The validation prelude of `fetch_solar_wind_merged`
(`fetch_solar_wind.py` lines 92-103): reject `end <= start` and spans
over 7 days before any feed URL is touched; otherwise the plan is the
window key used to pick the feed. `s` and `e` are UTC instants in
seconds. -/
def fetch_plan (s e : ℚ) : Except String String :=
  if e ≤ s then Except.error "end must be after start"
  else if maxLookback < e - s then
    Except.error "Range > 7 days; use archive fallback for longer windows."
  else Except.ok (pick_window ((e - s) / 3600))

/-- The final clip of `fetch_solar_wind_merged` (line 117):
`merged.loc[(merged.index >= start) & (merged.index <= end)]` applied to
a timestamp-indexed series. -/
def clip_to_range (s e : ℚ) (xs : List (ℚ × ℚ)) : List (ℚ × ℚ) :=
  xs.filter fun p => decide (s ≤ p.1) && decide (p.1 ≤ e)

/-- Dynamic pressure `1.6726e-6 * density * speed**2` with NaN
propagation of pandas float arithmetic (`fetch_solar_wind.py` line 64,
`fetch_omni.py` line 45). -/
def pdyn_npa (density speed : Option ℚ) : Option ℚ :=
  match density, speed with
  | some n, some v => some ((16726 / 10 ^ 10) * n * v ^ 2)
  | _, _ => none

/-- Column `bz_south`, i.e. `df[col_bz].where(df[col_bz] < 0, 0)` (`fetch_solar_wind.py` line 66,
`fetch_omni.py` line 47). pandas `Series.where(cond, other)` keeps the
value where `cond` holds and substitutes `other` elsewhere; a NaN entry
compares `NaN < 0 = False`, so a null `bz` yields `0`. -/
def bz_south (bz : Option ℚ) : Option ℚ :=
  match bz with
  | some b => if b < 0 then some b else some 0
  | none => some 0

/-- Convective term `speed * bz` with NaN propagation
(`fetch_solar_wind.py` line 68, `fetch_omni.py` line 49). -/
def vbz (speed bz : Option ℚ) : Option ℚ :=
  match speed, bz with
  | some v, some b => some (v * b)
  | _, _ => none

/-- The clock angle `math.atan2(by, bz)` (`fetch_solar_wind.py` line 74): the argument of
the complex number `bz + by*i`, valued in `(-π, π]`. -/
noncomputable def clock_angle_rad (bY bz : ℝ) : ℝ :=
  Complex.arg (Complex.ofReal bz + Complex.ofReal bY * Complex.I)

/-- The masked clock-angle column (`fetch_solar_wind.py` lines 71-75):
rows where `by` or `bz` is NA keep `pd.NA`. -/
noncomputable def clock_angle_opt (bY bz : Option ℝ) : Option ℝ :=
  match bY, bz with
  | some a, some b => some (clock_angle_rad a b)
  | _, _ => none

/-- The body of `_newell` (`fetch_solar_wind.py` line 79):
`(max(v,0)**(4/3)) * (max(bt,0)**(2/3)) * (math.sin(abs(theta)/2)**(8/3))`,
real powers. -/
noncomputable def newell (v bt th : ℝ) : ℝ :=
  max v 0 ^ ((4 : ℝ) / 3) * max bt 0 ^ ((2 : ℝ) / 3) *
    Real.sin (|th| / 2) ^ ((8 : ℝ) / 3)

/-- Function `_newell` with its `pd.isna` guards (`fetch_solar_wind.py` line 78):
any NA input yields NA. -/
noncomputable def newell_opt (v bt th : Option ℝ) : Option ℝ :=
  match v, bt, th with
  | some a, some b, some t => some (newell a b t)
  | _, _, _ => none

/-- One pass of pandas `Series.ffill(limit=limit)` (`fetch_solar_wind.py`
line 115, `fetch_omni.py` line 65). State: `last` is the last observed
value, `d` the number of consecutive nulls seen since it; a null is
filled only while `d < limit`. -/
def ffill_go (limit : ℕ) : Option ℚ → ℕ → List (Option ℚ) → List (Option ℚ)
  | _, _, [] => []
  | last, d, none :: t =>
    (match last with
     | some v => if d < limit then some v else none
     | none => none) :: ffill_go limit last (d + 1) t
  | _, _, some v :: t => some v :: ffill_go limit (some v) 0 t

/-- The fill state (`last`, nulls since `last`) after consuming a list. -/
def ffill_state : Option ℚ → ℕ → List (Option ℚ) → Option ℚ × ℕ
  | last, d, [] => (last, d)
  | last, d, none :: t => ffill_state last (d + 1) t
  | _, _, some v :: t => ffill_state (some v) 0 t

/-- Running `series.ffill(limit=limit)` from an empty initial state. -/
def ffill_limited (limit : ℕ) (xs : List (Option ℚ)) : List (Option ℚ) :=
  ffill_go limit none 0 xs

/-- Pandas `df.drop_duplicates(subset=["time"])` over a timestamp-keyed row
list (`fetch_solar_wind.py` line 43): pandas default `keep="first"`
retains the first row of each timestamp in input order. `seen` is the
set of timestamps already emitted. -/
def drop_duplicates_go : List (ℕ × ℚ) → List ℕ → List (ℕ × ℚ)
  | [], _ => []
  | (t, v) :: rest, seen =>
    if t ∈ seen then drop_duplicates_go rest seen
    else (t, v) :: drop_duplicates_go rest (t :: seen)

/-- Timestamp deduplication as used in `_fetch_json_table`. -/
def drop_duplicates (rows : List (ℕ × ℚ)) : List (ℕ × ℚ) :=
  drop_duplicates_go rows []

/-- The 5-minute bucket key of `parse_records`
(`ingest_solar_wind.py` line 48): `t.replace(minute=(t.minute//5)*5,
second=0, microsecond=0)`, i.e. floor to a 300-second boundary. -/
def bucket_of (t : ℕ) : ℕ := t / 300 * 300

/-- Which bucket (if any) a raw row contributes to in `parse_records`:
rows whose timestamp fails to parse are skipped (`continue`), rows older
than `earliest` are skipped, the rest are bucketed. The row is a parsed
timestamp (`none` = unparseable) paired with its payload. -/
def row_bucket (earliest : ℕ) (r : Option ℕ × ℚ) : Option ℕ :=
  match r.1 with
  | none => none
  | some t => if t < earliest then none else some (bucket_of t)

/-- Python dict assignment `out[bucket] = record` on an insertion-ordered
association list: an existing key keeps its position but takes the new
value; a new key is appended. -/
def update_assoc : List (ℕ × ℚ) → ℕ → ℚ → List (ℕ × ℚ)
  | [], k, v => [(k, v)]
  | (k', v') :: rest, k, v =>
    if k' = k then (k, v) :: rest
    else (k', v') :: update_assoc rest k v

/-- Function `parse_records` (`ingest_solar_wind.py` lines 38-65) reduced to its
dedup-by-bucket core: fold the rows into the `out` dict and return
`list(out.values())` as the association list itself. -/
def parse_records (earliest : ℕ) (rows : List (Option ℕ × ℚ)) : List (ℕ × ℚ) :=
  rows.foldl
    (fun m r =>
      match row_bucket earliest r with
      | none => m
      | some b => update_assoc m b r.2)
    []

/-- The payloads contributed to bucket `b` by `rows`, in input order. -/
def bucket_vals (earliest : ℕ) (rows : List (Option ℕ × ℚ)) (b : ℕ) : List ℚ :=
  rows.filterMap fun r =>
    match row_bucket earliest r with
    | none => none
    | some b' => if b' = b then some r.2 else none

/-- First-biased choice on options (used to state lookup lemmas). -/
def optOr : Option ℚ → Option ℚ → Option ℚ
  | some v, _ => some v
  | none, x => x

/-- Value of the first entry with key `k` in a timestamp-keyed row list
(the sample a reader observes at that timestamp). -/
def alookup (k : ℕ) : List (ℕ × ℚ) → Option ℚ
  | [] => none
  | (k', v) :: t => if k = k' then some v else alookup k t

/-- One attempt's visible outcome at the sink: a network-level
`requests.RequestException`, or an HTTP response with a status code. -/
inductive Resp where
  | exc : Resp
  | status : ℕ → Resp
deriving DecidableEq

/-- A failure is transient iff it is a network error or
`r.status_code >= 500 or r.status_code == 503`
(`ingest_swarm_test.py` lines 58, 64). -/
def is_transient : Resp → Bool
  | Resp.exc => true
  | Resp.status c => decide (500 ≤ c) || decide (c = 503)

/-- Terminal outcome for one chunk: how many POST attempts were made and
which backoff delays (seconds) were slept before reaching it. -/
inductive SendOutcome where
  | success : ℕ → List ℕ → SendOutcome
  | fatal : ℕ → List ℕ → SendOutcome
deriving DecidableEq

/-- The retry loop `for attempt in range(6)` of `SupabaseREST.upsert`
(`ingest_swarm_test.py` lines 51-74). `fuel` counts the remaining
iterations, so the current attempt index is `5 - fuel` when the fuel is
`fuel + 1`; starting fuel is 6. A transient outcome on the last attempt
raises; earlier it sleeps `2 ** attempt` and retries. A non-transient
status `>= 300` raises immediately; otherwise the chunk is sent and the
loop breaks. (The `fuel = 0` equation is unreachable from `send_chunk`.) -/
def send_chunk_go (resp : ℕ → Resp) : ℕ → List ℕ → SendOutcome
  | 0, delays => SendOutcome.fatal 6 delays
  | fuel + 1, delays =>
    let attempt := 5 - fuel
    match resp attempt with
    | Resp.exc =>
      if fuel = 0 then SendOutcome.fatal (attempt + 1) delays
      else send_chunk_go resp fuel (delays ++ [2 ^ attempt])
    | Resp.status c =>
      if 500 ≤ c ∨ c = 503 then
        if fuel = 0 then SendOutcome.fatal (attempt + 1) delays
        else send_chunk_go resp fuel (delays ++ [2 ^ attempt])
      else if 300 ≤ c then SendOutcome.fatal (attempt + 1) delays
      else SendOutcome.success (attempt + 1) delays

/-- Sending one chunk: the Python loop entered at `attempt = 0`. `resp n`
is the destination's outcome for the n-th POST attempt. -/
def send_chunk (resp : ℕ → Resp) : SendOutcome :=
  send_chunk_go resp 6 []

/-- The `records[i:i+batch_size]` chunking of `SupabaseREST.upsert`
(`ingest_swarm_test.py` lines 46-47). -/
def chunks_of (batch : ℕ) (records : List ℚ) : List (List ℚ) :=
  if _h : records = [] ∨ batch = 0 then []
  else records.take batch :: chunks_of batch (records.drop batch)
termination_by records.length
decreasing_by
  simp only [List.length_drop]
  rcases records with _ | ⟨a, tl⟩
  · exact absurd rfl (by tauto)
  · have hb : 0 < batch := Nat.pos_of_ne_zero (by tauto)
    simp only [List.length_cons]
    omega

/-- A network request issued by the sink: the target table paired with
`none` for the warm-up GET and `some chunk` for a POST. -/
def Req : Type := String × Option (List ℚ)

/-- The sequence of network requests issued by `SupabaseREST.upsert`
(`ingest_swarm_test.py` lines 40-57): `if not records: return` issues
nothing; otherwise one warm-up GET, then one POST per chunk (retries of
one chunk re-POST the same payload and are not distinguished here). -/
def upsert_trace (table : String) (records : List ℚ) (batch : ℕ) : List Req :=
  if records.isEmpty then []
  else (table, none) :: (chunks_of batch records).map fun c => (table, some c)

/-- Effect of a request sequence on the destination store: a warm-up GET
is read-only; a POST upserts its chunk (modelled as accumulation, enough
to observe any write). -/
def apply_reqs (store : List ℚ) : List Req → List ℚ
  | [] => store
  | (_, none) :: t => apply_reqs store t
  | (_, some c) :: t => apply_reqs (store ++ c) t

/-- One row of the Swarm output frame (`ingest_swarm_test.py` line 140):
satellite id plus the three magnetic-vector components, already sorted
by `["sat_id", "ts"]`. -/
structure SwarmRow where
  sat : String
  bn : ℚ
  be : ℚ
  bd : ℚ
deriving DecidableEq

/-- Pandas `out.groupby("sat_id")[["bn_ut","be_ut","bd_ut"]].diff(lag)` at row
`i` (`ingest_swarm_test.py` line 153): the within-group predecessors of
row `i` are the earlier rows with the same `sat_id`; if the row's
within-group position is at least `lag`, the difference is taken with
the group element `lag` positions back, else the result is NaN. -/
def group_diff (lag : ℕ) (rows : List SwarmRow) (i : ℕ) : Option (ℚ × ℚ × ℚ) :=
  match rows[i]? with
  | none => none
  | some r =>
    let g := (rows.take i).filter fun s => s.sat == r.sat
    if lag ≤ g.length then
      match g[g.length - lag]? with
      | some p => some (r.bn - p.bn, r.be - p.be, r.bd - p.bd)
      | none => none
    else none

/-! ### Basic facts about `optOr` -/

theorem optOr_none_right : ∀ x : Option ℚ, optOr x none = x
  | some _ => rfl
  | none => rfl

theorem optOr_some_absorb (x : Option ℚ) (y : ℚ) (z : Option ℚ) :
    optOr (optOr x (some y)) z = optOr x (some y) := by
  cases x <;> rfl

theorem getLast?_cons_eq_optOr (x : ℚ) (l : List ℚ) :
    (x :: l).getLast? = optOr l.getLast? (some x) := by
  cases l with
  | nil => rfl
  | cons y t =>
    rw [List.getLast?_cons_cons]
    cases h : (y :: t).getLast? with
    | none => exact absurd (List.getLast?_eq_none_iff.mp h) (by simp)
    | some z => rfl

/-! ### C3 / C4: window selection and range validation -/

/-- C3: for every requested span (in hours) covered by some feed bucket,
`_pick_window` returns the bucket of smallest covered span among those
that cover it; in particular 50 hours selects the 3-day bucket, not 6h
and not 7d. A span no bucket covers falls back to the largest bucket. -/
theorem pick_window_smallest :
    (∀ h : ℚ, h ≤ 168 →
      ∃ s, (pick_window h, s) ∈ windowBuckets ∧ h ≤ s ∧
        ∀ p ∈ windowBuckets, h ≤ p.2 → s ≤ p.2) ∧
    (pick_window 50 = "3d" ∧ pick_window 50 ≠ "6h" ∧ pick_window 50 ≠ "7d") ∧
    (∀ h : ℚ, 168 < h → pick_window h = "7d") := by
  refine ⟨?_, ⟨by decide, by decide, by decide⟩, ?_⟩
  case refine_2 =>
    intro h h168
    rw [pick_window, if_neg (by linarith), if_neg (by linarith),
      if_neg (by linarith)]
  intro h h168
  by_cases h2 : h ≤ 2
  · refine ⟨2, by simp [pick_window, h2, windowBuckets], h2, ?_⟩
    intro p hp
    simp only [windowBuckets] at hp
    fin_cases hp
    all_goals norm_num
  · have h2' := not_le.mp h2
    by_cases h6 : h ≤ 6
    · refine ⟨6, by simp [pick_window, h2, h6, windowBuckets], h6, ?_⟩
      intro p hp
      simp only [windowBuckets] at hp
      fin_cases hp <;> (norm_num; try linarith)
    · have h6' := not_le.mp h6
      by_cases h72 : h ≤ 72
      · refine ⟨72, by simp [pick_window, h2, h6, h72, windowBuckets], h72, ?_⟩
        intro p hp
        simp only [windowBuckets] at hp
        fin_cases hp <;> (norm_num; try linarith)
      · have h72' := not_le.mp h72
        refine ⟨168, by simp [pick_window, h2, h6, h72, windowBuckets], h168, ?_⟩
        intro p hp
        simp only [windowBuckets] at hp
        fin_cases hp <;> (norm_num; try linarith)

/-- Witness for `pick_window_smallest` at the 50-hour and 200-hour
spans. -/
theorem pick_window_smallest_witness :
    ((50 : ℚ) ≤ 168 ∧
      ∃ s, (pick_window 50, s) ∈ windowBuckets ∧ (50 : ℚ) ≤ s ∧
        ∀ p ∈ windowBuckets, (50 : ℚ) ≤ p.2 → s ≤ p.2) ∧
    ((168 : ℚ) < 200 ∧ pick_window 200 = "7d") :=
  ⟨⟨by norm_num, pick_window_smallest.1 50 (by norm_num)⟩,
    ⟨by norm_num, pick_window_smallest.2.2 200 (by norm_num)⟩⟩

/-- C4: `fetch_solar_wind_merged` rejects `end <= start` and spans over
7 days with a `ValueError` before any fetch (the plan carries no feed
URL in the error case), and any span with `start < end <= start + 7d`
passes validation. -/
theorem fetch_plan_range_check (s e : ℚ) :
    ((e ≤ s ∨ maxLookback < e - s) → ∃ msg, fetch_plan s e = Except.error msg) ∧
    (s < e → e - s ≤ maxLookback → ∃ w, fetch_plan s e = Except.ok w) := by
  constructor
  · intro hbad
    by_cases hle : e ≤ s
    · exact ⟨_, by rw [fetch_plan, if_pos hle]⟩
    · have hbig : maxLookback < e - s := hbad.resolve_left hle
      exact ⟨_, by rw [fetch_plan, if_neg hle, if_pos hbig]⟩
  · intro hlt hspan
    exact ⟨_, by rw [fetch_plan, if_neg (not_le.mpr hlt), if_neg (not_lt.mpr hspan)]⟩

/-- Witness for `fetch_plan_range_check`: a degenerate range is rejected
and a one-hour range is accepted. -/
theorem fetch_plan_range_check_witness :
    ((0 : ℚ) ≤ 0 ∨ maxLookback < 0 - 0) ∧
    (∃ msg, fetch_plan 0 0 = Except.error msg) ∧
    (0 : ℚ) < 3600 ∧ (3600 : ℚ) - 0 ≤ maxLookback ∧
    ∃ w, fetch_plan 0 3600 = Except.ok w :=
  ⟨Or.inl le_rfl, (fetch_plan_range_check 0 0).1 (Or.inl le_rfl),
    by norm_num, by norm_num [maxLookback],
    (fetch_plan_range_check 0 3600).2 (by norm_num) (by norm_num [maxLookback])⟩

/-! ### C2: the output range clip -/

/-- C2 counterexample: the clip keeps a sample whose timestamp equals
`end`, while the claimed half-open interval `[start, end)` would require
`t < end`. -/
theorem clip_includes_end_counterexample :
    clip_to_range 0 10 [(10, 1)] = [(10, 1)] ∧ ¬ ((10 : ℚ) < 10) := by
  exact ⟨by decide, by norm_num⟩

/-- C2 amended: the output of the clip is exactly the samples in the
closed interval `[start, end]`; a sample at `end` is included. -/
theorem clip_to_range_closed (s e : ℚ) (xs : List (ℚ × ℚ)) (p : ℚ × ℚ) :
    p ∈ clip_to_range s e xs ↔ p ∈ xs ∧ s ≤ p.1 ∧ p.1 ≤ e := by
  simp [clip_to_range, List.mem_filter, and_assoc]

/-! ### C1: null propagation of derived features -/

/-- C1 counterexample: a null `bz` yields `bz_south = 0`, a substituted
zero, not null. -/
theorem bz_south_null_counterexample :
    bz_south none = some 0 ∧ bz_south none ≠ none :=
  ⟨rfl, by simp [bz_south]⟩

/-- C1 amended: dynamic pressure, vbz, clock angle and the coupling
proxy are null whenever any required input is null; `bz_south`, however,
is the substituted value `0` (not null) when `bz` is null. -/
theorem derived_null_propagation :
    (∀ v, pdyn_npa none v = none) ∧ (∀ n, pdyn_npa n none = none) ∧
    (∀ b, vbz none b = none) ∧ (∀ v, vbz v none = none) ∧
    (∀ b, clock_angle_opt none b = none) ∧ (∀ a, clock_angle_opt a none = none) ∧
    (∀ bt th, newell_opt none bt th = none) ∧
    (∀ v th, newell_opt v none th = none) ∧
    (∀ v bt, newell_opt v bt none = none) ∧
    bz_south none = some 0 :=
  ⟨fun v => by cases v <;> rfl, fun n => by cases n <;> rfl,
    fun b => by cases b <;> rfl, fun v => by cases v <;> rfl,
    fun b => by cases b <;> rfl, fun a => by cases a <;> rfl,
    fun bt th => by cases bt <;> cases th <;> rfl,
    fun v th => by cases v <;> cases th <;> rfl,
    fun v bt => by cases v <;> cases bt <;> rfl, rfl⟩

/-! ### C8: coupling proxy non-negativity -/

/-- C8: on any row where speed, bt and the clock angle are all non-null,
the Newell coupling proxy is defined and non-negative (the clock angle
being the `atan2` value in `(-π, π]`). -/
theorem newell_proxy_nonneg (v bt bY bz : ℝ) :
    ∃ r, newell_opt (some v) (some bt) (some (clock_angle_rad bY bz)) = some r ∧
      0 ≤ r := by
  refine ⟨newell v bt (clock_angle_rad bY bz), rfl, ?_⟩
  have hpi : |clock_angle_rad bY bz| ≤ Real.pi := Complex.abs_arg_le_pi _
  have h0 : (0 : ℝ) ≤ |clock_angle_rad bY bz| / 2 := by positivity
  have h1 : |clock_angle_rad bY bz| / 2 ≤ Real.pi := by
    have := Real.pi_pos
    linarith
  have hs : 0 ≤ Real.sin (|clock_angle_rad bY bz| / 2) :=
    Real.sin_nonneg_of_nonneg_of_le_pi h0 h1
  unfold newell
  exact mul_nonneg
    (mul_nonneg (Real.rpow_nonneg (le_max_right _ _) _)
      (Real.rpow_nonneg (le_max_right _ _) _))
    (Real.rpow_nonneg hs _)

/-! ### C10: empty upsert -/

/-- C10: the sink's `upsert` with an empty record list issues no network
request at all (no warm-up GET, no POST) and leaves the destination
store unchanged. -/
theorem upsert_empty_no_requests (table : String) (batch : ℕ) (store : List ℚ) :
    upsert_trace table [] batch = [] ∧
    apply_reqs store (upsert_trace table [] batch) = store :=
  ⟨rfl, rfl⟩

/-! ### C5: bounded forward-fill -/

theorem ffill_go_length (limit : ℕ) :
    ∀ (xs : List (Option ℚ)) (last : Option ℚ) (d : ℕ),
      (ffill_go limit last d xs).length = xs.length := by
  intro xs
  induction xs with
  | nil => intro last d; rfl
  | cons x t ih => intro last d; cases x <;> simp [ffill_go, ih]

theorem ffill_go_append (limit : ℕ) :
    ∀ (p rest : List (Option ℚ)) (last : Option ℚ) (d : ℕ),
      ffill_go limit last d (p ++ rest)
        = ffill_go limit last d p
          ++ ffill_go limit (ffill_state last d p).1 (ffill_state last d p).2 rest := by
  intro p
  induction p with
  | nil => intro rest last d; rfl
  | cons x t ih => intro rest last d; cases x <;> simp [ffill_go, ffill_state, ih]

theorem ffill_go_cons_some (limit : ℕ) (last : Option ℚ) (d : ℕ) (v : ℚ)
    (t : List (Option ℚ)) :
    ffill_go limit last d (some v :: t) = some v :: ffill_go limit (some v) 0 t :=
  rfl

theorem ffill_go_none_run (limit : ℕ) (v : ℚ) :
    ∀ (n d : ℕ) (rest : List (Option ℚ)),
      ffill_go limit (some v) d (List.replicate n none ++ rest)
        = List.replicate (min n (limit - d)) (some v)
          ++ (List.replicate (n - (limit - d)) none
              ++ ffill_go limit (some v) (d + n) rest) := by
  intro n
  induction n with
  | zero => intro d rest; simp
  | succ n ih =>
    intro d rest
    rw [List.replicate_succ, List.cons_append]
    show (if d < limit then some v else none)
        :: ffill_go limit (some v) (d + 1) (List.replicate n none ++ rest) = _
    rw [ih (d + 1)]
    by_cases hd : d < limit
    · have hm : limit - d = (limit - (d + 1)) + 1 := by omega
      rw [if_pos hd, hm, Nat.succ_min_succ, Nat.succ_sub_succ, List.replicate_succ,
        List.cons_append]
      have : d + 1 + n = d + (n + 1) := by omega
      rw [this]
    · have hz : limit - d = 0 := by omega
      have hz1 : limit - (d + 1) = 0 := by omega
      rw [if_neg hd, hz, hz1]
      simp only [Nat.min_zero, List.replicate_zero, List.nil_append, Nat.sub_zero,
        List.replicate_succ, List.cons_append]
      have : d + 1 + n = d + (n + 1) := by omega
      rw [this]

/-- C5: after resampling, `ffill(limit=5)` fills exactly the first 5
buckets of any maximal run of `n >= 6` consecutive empty buckets that
follows a known value; buckets 6..n stay null, and the value closing the
run restarts filling. `p` is an arbitrary already-processed prefix. -/
theorem ffill_gap_bound (p s : List (Option ℚ)) (v w : ℚ) (n : ℕ) (hn : 6 ≤ n) :
    ∃ q : List (Option ℚ), q.length = p.length ∧
      ffill_limited 5 (p ++ some v :: (List.replicate n none ++ some w :: s))
        = q ++ some v :: (List.replicate 5 (some v)
            ++ (List.replicate (n - 5) none ++ some w :: ffill_go 5 (some w) 0 s)) := by
  refine ⟨ffill_go 5 none 0 p, ffill_go_length 5 p none 0, ?_⟩
  rw [ffill_limited, ffill_go_append, ffill_go_cons_some, ffill_go_none_run,
    ffill_go_cons_some]
  have h5 : (5 : ℕ) - 0 = 5 := rfl
  have hmin : min n (5 - 0) = 5 := by omega
  rw [hmin, h5]

/-- Witness for `ffill_gap_bound`: a run of exactly 6 empty buckets. -/
theorem ffill_gap_bound_witness :
    6 ≤ 6 ∧
    ∃ q : List (Option ℚ), q.length = ([] : List (Option ℚ)).length ∧
      ffill_limited 5 ([] ++ some 1 :: (List.replicate 6 none ++ some 2 :: []))
        = q ++ some 1 :: (List.replicate 5 (some 1)
            ++ (List.replicate (6 - 5) none ++ some 2 :: ffill_go 5 (some 2) 0 [])) :=
  ⟨le_refl 6, ffill_gap_bound [] [] 1 2 6 (le_refl 6)⟩

/-! ### C6: retry policy of the sink -/

theorem send_chunk_go_step (resp : ℕ → Resp) (fuel : ℕ) (delays : List ℕ) :
    send_chunk_go resp (fuel + 1 + 1) delays
      = (match resp (5 - (fuel + 1)) with
         | Resp.exc => send_chunk_go resp (fuel + 1) (delays ++ [2 ^ (5 - (fuel + 1))])
         | Resp.status c =>
           if 500 ≤ c ∨ c = 503 then
             send_chunk_go resp (fuel + 1) (delays ++ [2 ^ (5 - (fuel + 1))])
           else if 300 ≤ c then SendOutcome.fatal (5 - (fuel + 1) + 1) delays
           else SendOutcome.success (5 - (fuel + 1) + 1) delays) :=
  rfl

theorem send_chunk_go_last (resp : ℕ → Resp) (delays : List ℕ) :
    send_chunk_go resp 1 delays
      = (match resp 5 with
         | Resp.exc => SendOutcome.fatal 6 delays
         | Resp.status c =>
           if 500 ≤ c ∨ c = 503 then SendOutcome.fatal 6 delays
           else if 300 ≤ c then SendOutcome.fatal 6 delays
           else SendOutcome.success 6 delays) :=
  rfl

theorem send_chunk_go_transient (resp : ℕ → Resp) (fuel : ℕ) (delays : List ℕ)
    (h : is_transient (resp (5 - (fuel + 1))) = true) :
    send_chunk_go resp (fuel + 1 + 1) delays
      = send_chunk_go resp (fuel + 1) (delays ++ [2 ^ (5 - (fuel + 1))]) := by
  rw [send_chunk_go_step]
  cases hr : resp (5 - (fuel + 1)) with
  | exc => rfl
  | status c =>
    rw [hr] at h
    simp only [is_transient, Bool.or_eq_true, decide_eq_true_eq] at h
    dsimp only
    rw [if_pos h]

theorem send_chunk_go_transient_exhaust (resp : ℕ → Resp) (delays : List ℕ)
    (h : is_transient (resp 5) = true) :
    send_chunk_go resp 1 delays = SendOutcome.fatal 6 delays := by
  rw [send_chunk_go_last]
  cases hr : resp 5 with
  | exc => rfl
  | status c =>
    rw [hr] at h
    simp only [is_transient, Bool.or_eq_true, decide_eq_true_eq] at h
    dsimp only
    rw [if_pos h]

theorem send_chunk_go_nontransient (resp : ℕ → Resp) (fuel : ℕ) (delays : List ℕ)
    (c : ℕ) (hr : resp (5 - fuel) = Resp.status c) (hc : c < 500) :
    send_chunk_go resp (fuel + 1) delays
      = if 300 ≤ c then SendOutcome.fatal (5 - fuel + 1) delays
        else SendOutcome.success (5 - fuel + 1) delays := by
  have hnt : ¬ (500 ≤ c ∨ c = 503) := by omega
  cases fuel with
  | zero =>
    rw [send_chunk_go_last, hr]
    dsimp only
    rw [if_neg hnt]
  | succ f =>
    rw [send_chunk_go_step, hr]
    dsimp only
    rw [if_neg hnt]

/-- C6: a chunk whose every attempt fails transiently (network error or
status >= 500) is retried with delays 1, 2, 4, 8, 16 seconds and fails
the run after 6 total attempts; a non-transient status in 300..499 fails
immediately after 1 attempt with no delay; a transient failure twice
followed by success sends the chunk with exactly 3 attempts. -/
theorem upsert_retry_policy
    (respA respB respC : ℕ → Resp) (cB cC : ℕ)
    (hA : ∀ n, is_transient (respA n) = true)
    (hB : respB 0 = Resp.status cB) (hB1 : 300 ≤ cB) (hB2 : cB < 500)
    (hC0 : is_transient (respC 0) = true) (hC1 : is_transient (respC 1) = true)
    (hC2 : respC 2 = Resp.status cC) (hCc : cC < 300) :
    send_chunk respA = SendOutcome.fatal 6 [1, 2, 4, 8, 16] ∧
    send_chunk respB = SendOutcome.fatal 1 [] ∧
    send_chunk respC = SendOutcome.success 3 [1, 2] := by
  refine ⟨?_, ?_, ?_⟩
  · have e1 : send_chunk_go respA 6 [] = send_chunk_go respA 5 [1] := by
      simpa using send_chunk_go_transient respA 4 [] (hA 0)
    have e2 : send_chunk_go respA 5 [1] = send_chunk_go respA 4 [1, 2] := by
      simpa using send_chunk_go_transient respA 3 [1] (hA 1)
    have e3 : send_chunk_go respA 4 [1, 2] = send_chunk_go respA 3 [1, 2, 4] := by
      simpa using send_chunk_go_transient respA 2 [1, 2] (hA 2)
    have e4 : send_chunk_go respA 3 [1, 2, 4]
        = send_chunk_go respA 2 [1, 2, 4, 8] := by
      simpa using send_chunk_go_transient respA 1 [1, 2, 4] (hA 3)
    have e5 : send_chunk_go respA 2 [1, 2, 4, 8]
        = send_chunk_go respA 1 [1, 2, 4, 8, 16] := by
      simpa using send_chunk_go_transient respA 0 [1, 2, 4, 8] (hA 4)
    rw [send_chunk, e1, e2, e3, e4, e5]
    exact send_chunk_go_transient_exhaust respA [1, 2, 4, 8, 16] (hA 5)
  · have hb := send_chunk_go_nontransient respB 5 [] cB hB hB2
    rw [if_pos hB1] at hb
    rw [send_chunk]
    simpa using hb
  · have f1 : send_chunk_go respC 6 [] = send_chunk_go respC 5 [1] := by
      simpa using send_chunk_go_transient respC 4 [] hC0
    have f2 : send_chunk_go respC 5 [1] = send_chunk_go respC 4 [1, 2] := by
      simpa using send_chunk_go_transient respC 3 [1] hC1
    have f3 := send_chunk_go_nontransient respC 3 [1, 2] cC hC2 (by omega)
    rw [if_neg (by omega : ¬ (300 ≤ cC))] at f3
    rw [send_chunk, f1, f2]
    simpa using f3

/-- Witness for `upsert_retry_policy`: always-transient, immediate 400,
and transient-transient-success destinations. -/
theorem upsert_retry_policy_witness :
    send_chunk (fun _ => Resp.exc) = SendOutcome.fatal 6 [1, 2, 4, 8, 16] ∧
    send_chunk (fun _ => Resp.status 400) = SendOutcome.fatal 1 [] ∧
    send_chunk (fun n => if n < 2 then Resp.exc else Resp.status 200)
      = SendOutcome.success 3 [1, 2] :=
  upsert_retry_policy (fun _ => Resp.exc) (fun _ => Resp.status 400)
    (fun n => if n < 2 then Resp.exc else Resp.status 200) 400 200
    (fun _ => rfl) rfl (by omega) (by omega) rfl rfl rfl (by omega)

/-! ### C7: deduplication policy of the two normalizers -/

theorem drop_duplicates_go_alookup :
    ∀ (rows : List (ℕ × ℚ)) (seen : List ℕ) (t : ℕ), t ∉ seen →
      alookup t (drop_duplicates_go rows seen) = alookup t rows := by
  intro rows
  induction rows with
  | nil => intro seen t ht; rfl
  | cons rv rest ih =>
    intro seen t ht
    obtain ⟨t', v⟩ := rv
    by_cases hmem : t' ∈ seen
    · rw [drop_duplicates_go, if_pos hmem]
      have hne : t ≠ t' := fun he => ht (he ▸ hmem)
      rw [alookup, if_neg hne]
      exact ih seen t ht
    · rw [drop_duplicates_go, if_neg hmem]
      by_cases heq : t = t'
      · rw [alookup, if_pos heq, alookup, if_pos heq]
      · rw [alookup, if_neg heq, alookup, if_neg heq]
        refine ih (t' :: seen) t ?_
        intro hc
        rcases List.mem_cons.mp hc with he | hs
        · exact heq he
        · exact ht hs

theorem drop_duplicates_go_keys :
    ∀ (rows : List (ℕ × ℚ)) (seen : List ℕ),
      ((drop_duplicates_go rows seen).map Prod.fst).Nodup ∧
      ∀ t ∈ (drop_duplicates_go rows seen).map Prod.fst, t ∉ seen := by
  intro rows
  induction rows with
  | nil => intro seen; exact ⟨List.nodup_nil, by simp [drop_duplicates_go]⟩
  | cons rv rest ih =>
    intro seen
    obtain ⟨t', v⟩ := rv
    by_cases hmem : t' ∈ seen
    · rw [drop_duplicates_go, if_pos hmem]
      exact ih seen
    · rw [drop_duplicates_go, if_neg hmem]
      obtain ⟨hnd, hni⟩ := ih (t' :: seen)
      rw [List.map_cons]
      refine ⟨List.nodup_cons.mpr ⟨?_, hnd⟩, ?_⟩
      · intro hcon
        exact (hni t' hcon) (List.mem_cons_self t' seen)
      · intro t htm
        rcases List.mem_cons.mp htm with rfl | htm'
        · exact hmem
        · intro hts
          exact (hni t htm') (List.mem_cons_of_mem _ hts)

theorem update_assoc_alookup_self :
    ∀ (m : List (ℕ × ℚ)) (k : ℕ) (v : ℚ),
      alookup k (update_assoc m k v) = some v := by
  intro m
  induction m with
  | nil => intro k v; rw [update_assoc, alookup, if_pos rfl]
  | cons kv rest ih =>
    intro k v
    obtain ⟨k', v'⟩ := kv
    by_cases h : k' = k
    · rw [update_assoc, if_pos h, alookup, if_pos rfl]
    · rw [update_assoc, if_neg h, alookup, if_neg (fun he => h he.symm)]
      exact ih k v

theorem update_assoc_alookup_ne :
    ∀ (m : List (ℕ × ℚ)) (a k : ℕ) (v : ℚ), a ≠ k →
      alookup a (update_assoc m k v) = alookup a m := by
  intro m
  induction m with
  | nil => intro a k v ha; simp [update_assoc, alookup, ha]
  | cons kv rest ih =>
    intro a k v ha
    obtain ⟨k', v'⟩ := kv
    by_cases h : k' = k
    · subst h
      rw [update_assoc, if_pos rfl, alookup, if_neg ha, alookup, if_neg ha]
    · rw [update_assoc, if_neg h]
      by_cases ha' : a = k'
      · rw [alookup, if_pos ha', alookup, if_pos ha']
      · rw [alookup, if_neg ha', alookup, if_neg ha']
        exact ih a k v ha

theorem update_assoc_keys_mem :
    ∀ (m : List (ℕ × ℚ)) (k : ℕ) (v : ℚ) (a : ℕ),
      a ∈ (update_assoc m k v).map Prod.fst → a = k ∨ a ∈ m.map Prod.fst := by
  intro m
  induction m with
  | nil =>
    intro k v a ha
    rw [update_assoc] at ha
    simp at ha
    exact Or.inl ha
  | cons kv rest ih =>
    intro k v a ha
    obtain ⟨k', v'⟩ := kv
    by_cases h : k' = k
    · rw [update_assoc, if_pos h] at ha
      rcases List.mem_cons.mp ha with he | hm
      · exact Or.inl he
      · exact Or.inr (by simpa using Or.inr (by simpa using hm))
    · rw [update_assoc, if_neg h, List.map_cons] at ha
      rcases List.mem_cons.mp ha with he | hm
      · exact Or.inr (by simp [he])
      · rcases ih k v a hm with h1 | h2
        · exact Or.inl h1
        · exact Or.inr (by simpa using Or.inr h2)

theorem update_assoc_keys_nodup :
    ∀ (m : List (ℕ × ℚ)) (k : ℕ) (v : ℚ),
      (m.map Prod.fst).Nodup → ((update_assoc m k v).map Prod.fst).Nodup := by
  intro m
  induction m with
  | nil => intro k v _; simp [update_assoc]
  | cons kv rest ih =>
    intro k v hnd
    obtain ⟨k', v'⟩ := kv
    rw [List.map_cons, List.nodup_cons] at hnd
    by_cases h : k' = k
    · subst h
      rw [update_assoc, if_pos rfl, List.map_cons]
      exact List.nodup_cons.mpr hnd
    · rw [update_assoc, if_neg h, List.map_cons]
      refine List.nodup_cons.mpr ⟨?_, ih k v hnd.2⟩
      intro hc
      rcases update_assoc_keys_mem rest k v k' hc with he | hm
      · exact h he
      · exact hnd.1 hm

theorem bucket_vals_cons_none (earliest : ℕ) (r : Option ℕ × ℚ)
    (rest : List (Option ℕ × ℚ)) (b : ℕ) (hrb : row_bucket earliest r = none) :
    bucket_vals earliest (r :: rest) b = bucket_vals earliest rest b := by
  simp [bucket_vals, List.filterMap_cons, hrb]

theorem bucket_vals_cons_some_eq (earliest : ℕ) (r : Option ℕ × ℚ)
    (rest : List (Option ℕ × ℚ)) (b : ℕ) (hrb : row_bucket earliest r = some b) :
    bucket_vals earliest (r :: rest) b = r.2 :: bucket_vals earliest rest b := by
  simp [bucket_vals, List.filterMap_cons, hrb]

theorem bucket_vals_cons_some_ne (earliest : ℕ) (r : Option ℕ × ℚ)
    (rest : List (Option ℕ × ℚ)) (b' b : ℕ) (hrb : row_bucket earliest r = some b')
    (hb : ¬ b' = b) :
    bucket_vals earliest (r :: rest) b = bucket_vals earliest rest b := by
  simp [bucket_vals, List.filterMap_cons, hrb, hb]

theorem parse_fold_alookup (earliest : ℕ) :
    ∀ (rows : List (Option ℕ × ℚ)) (m : List (ℕ × ℚ)) (b : ℕ),
      alookup b (rows.foldl
        (fun m r =>
          match row_bucket earliest r with
          | none => m
          | some b' => update_assoc m b' r.2) m)
        = optOr (bucket_vals earliest rows b).getLast? (alookup b m) := by
  intro rows
  induction rows with
  | nil => intro m b; simp [bucket_vals, optOr]
  | cons r rest ih =>
    intro m b
    rw [List.foldl_cons]
    cases hrb : row_bucket earliest r with
    | none =>
      rw [bucket_vals_cons_none earliest r rest b hrb]
      exact ih m b
    | some b' =>
      by_cases hb : b' = b
      · subst hb
        rw [bucket_vals_cons_some_eq earliest r rest b' hrb,
          getLast?_cons_eq_optOr, optOr_some_absorb]
        have h1 := ih (update_assoc m b' r.2) b'
        rw [update_assoc_alookup_self] at h1
        exact h1
      · rw [bucket_vals_cons_some_ne earliest r rest b' b hrb hb]
        have h1 := ih (update_assoc m b' r.2) b
        rw [update_assoc_alookup_ne m b b' r.2 (fun he => hb he.symm)] at h1
        exact h1

theorem parse_fold_keys_nodup (earliest : ℕ) :
    ∀ (rows : List (Option ℕ × ℚ)) (m : List (ℕ × ℚ)),
      (m.map Prod.fst).Nodup →
      ((rows.foldl
        (fun m r =>
          match row_bucket earliest r with
          | none => m
          | some b' => update_assoc m b' r.2) m).map Prod.fst).Nodup := by
  intro rows
  induction rows with
  | nil => intro m hm; exact hm
  | cons r rest ih =>
    intro m hm
    rw [List.foldl_cons]
    cases hrb : row_bucket earliest r with
    | none => exact ih m hm
    | some b' => exact ih (update_assoc m b' r.2) (update_assoc_keys_nodup m b' r.2 hm)

/-- C7 counterexample: two raw rows with the same (parseable, in-range)
timestamp; `parse_records` keeps the second one, not the first. -/
theorem parse_records_keeps_last_counterexample :
    parse_records 0 [(some 600, 1), (some 600, 2)] = [(600, 2)] ∧ (2 : ℚ) ≠ 1 :=
  ⟨by decide, by norm_num⟩

/-- C7 amended: `_fetch_json_table` deduplicates keeping the first row of
each timestamp in input order, with one output sample per timestamp; but
`parse_records` in `ingest_solar_wind.py` keeps the last-encountered row
of each bucket (dict overwrite), also with one sample per bucket. -/
theorem dedup_first_and_parse_last :
    (∀ (rows : List (ℕ × ℚ)) (t : ℕ),
      alookup t (drop_duplicates rows) = alookup t rows) ∧
    (∀ rows : List (ℕ × ℚ), ((drop_duplicates rows).map Prod.fst).Nodup) ∧
    (∀ (earliest : ℕ) (rows : List (Option ℕ × ℚ)) (b : ℕ),
      alookup b (parse_records earliest rows)
        = (bucket_vals earliest rows b).getLast?) ∧
    (∀ (earliest : ℕ) (rows : List (Option ℕ × ℚ)),
      ((parse_records earliest rows).map Prod.fst).Nodup) := by
  refine ⟨?_, ?_, ?_, ?_⟩
  · intro rows t
    exact drop_duplicates_go_alookup rows [] t (List.not_mem_nil t)
  · intro rows
    exact (drop_duplicates_go_keys rows []).1
  · intro earliest rows b
    rw [parse_records, parse_fold_alookup earliest rows [] b]
    exact optOr_none_right _
  · intro earliest rows
    exact parse_fold_keys_nodup earliest rows [] List.nodup_nil

/-! ### C9: lagged differences never cross satellites -/

/-- C9: whenever the grouped `diff(lag)` underlying `dbdt_utps` is
non-null at row `i`, the pair of samples it subtracts are row `i` and an
earlier row of the same satellite; it never pairs samples of two
different satellites. -/
theorem group_diff_same_sat (lag : ℕ) (rows : List SwarmRow) (i : ℕ)
    (d : ℚ × ℚ × ℚ) (h : group_diff lag rows i = some d) :
    ∃ j r p, j < i ∧ rows[j]? = some p ∧ rows[i]? = some r ∧
      p.sat = r.sat ∧ d = (r.bn - p.bn, r.be - p.be, r.bd - p.bd) := by
  unfold group_diff at h
  cases hri : rows[i]? with
  | none => rw [hri] at h; exact absurd h (by simp)
  | some r =>
    rw [hri] at h
    dsimp only at h
    by_cases hlag :
        lag ≤ ((rows.take i).filter fun s => s.sat == r.sat).length
    · rw [if_pos hlag] at h
      cases hgp : ((rows.take i).filter fun s => s.sat == r.sat)[
          ((rows.take i).filter fun s => s.sat == r.sat).length - lag]? with
      | none => rw [hgp] at h; exact absurd h (by simp)
      | some p =>
        rw [hgp] at h
        have hd : d = (r.bn - p.bn, r.be - p.be, r.bd - p.bd) :=
          (Option.some.inj h).symm
        have hpg : p ∈ (rows.take i).filter fun s => s.sat == r.sat :=
          List.getElem?_mem hgp
        have hsat : p.sat = r.sat := eq_of_beq (List.mem_filter.mp hpg).2
        have hpt : p ∈ rows.take i := (List.mem_filter.mp hpg).1
        obtain ⟨j, hjlen, hjget⟩ := List.getElem_of_mem hpt
        have hjlt : j < i := by
          have := hjlen
          rw [List.length_take] at this
          omega
        have hjrows : j < rows.length := by
          have := hjlen
          rw [List.length_take] at this
          omega
        refine ⟨j, r, p, hjlt, ?_, rfl, hsat, hd⟩
        rw [List.getElem?_eq_getElem hjrows]
        rw [List.getElem_take] at hjget
        rw [hjget]
    · rw [if_neg hlag] at h
      exact absurd h (by simp)

/-- Witness for `group_diff_same_sat`: two rows of satellite "A" with
lag 1. -/
theorem group_diff_same_sat_witness :
    group_diff 1 [⟨"A", 0, 0, 0⟩, ⟨"A", 1, 2, 3⟩] 1
      = some ((1 : ℚ) - 0, (2 : ℚ) - 0, (3 : ℚ) - 0) ∧
    ∃ j r p, j < 1 ∧
      ([⟨"A", 0, 0, 0⟩, ⟨"A", 1, 2, 3⟩] : List SwarmRow)[j]? = some p ∧
      ([⟨"A", 0, 0, 0⟩, ⟨"A", 1, 2, 3⟩] : List SwarmRow)[1]? = some r ∧
      p.sat = r.sat ∧
      ((1 : ℚ) - 0, (2 : ℚ) - 0, (3 : ℚ) - 0)
        = (r.bn - p.bn, r.be - p.be, r.bd - p.bd) :=
  ⟨rfl, group_diff_same_sat 1 [⟨"A", 0, 0, 0⟩, ⟨"A", 1, 2, 3⟩] 1
    ((1 : ℚ) - 0, (2 : ℚ) - 0, (3 : ℚ) - 0) rfl⟩

end GridGic
